import Mathlib

/-!
Shallow embedding of the NGN/USDT scraper repository:
src/code/ngn_usdt_scapper.py, src/code/ngn_usdt_scraper.py and
src/code/unofficial_ngn_usdt_scraper.py.

Modelling conventions.

Dates: the code stores dates as YYYY-MM-DD strings and steps through
days with datetime plus timedelta.  Lexicographic comparison of such
strings agrees with chronological order, and every date arithmetic the
code performs is on whole days.  We therefore model a date as its
proleptic Gregorian ordinal (a natural number, as Python
date.toordinal), with dateOrd converting a calendar (year, month, day)
triple to its ordinal; string comparison becomes comparison of
ordinals and (b - a).days becomes ordinal subtraction.

Rates: Python floats are modelled as rationals.  round(x, 2) is
modelled as rounding 100 * x to the nearest integer (Mathlib round,
which rounds halves up; Python rounds halves to even, a difference
only at exact .005 ties, and no value appearing in any claim or any
concrete input below is such a tie).

Dictionaries: the merged known_rates dict of the code has its keys
inserted in ascending date order and is afterwards only read through
sorted(keys) and by-key lookup, so it is modelled as an association
list with strictly ascending keys; lookup is List.lookup.
-/

-- The Rat arithmetic primitives are irreducible in Mathlib, which blocks
-- kernel evaluation of concrete rate computations; restore the default.
attribute [local semireducible] Rat.add Rat.mul Rat.inv Rat.sub

namespace Scraper

/-! ### Calendar arithmetic (Python datetime semantics) -/

/-- Gregorian leap-year test, as in Python calendar. -/
def isLeap (y : ℕ) : Bool := y % 4 == 0 && (y % 100 != 0 || y % 400 == 0)

/-- Length of month m (1..12) of year y. -/
def daysInMonth (y m : ℕ) : ℕ :=
  if m = 2 then (if isLeap y then 29 else 28)
  else if m = 4 ∨ m = 6 ∨ m = 9 ∨ m = 11 then 30
  else 31

/-- Days of year y that precede the first day of month m. -/
def daysBeforeMonth (y : ℕ) : ℕ → ℕ
  | 0 => 0
  | m + 1 => if m = 0 then 0 else daysBeforeMonth y m + daysInMonth y m

/-- Proleptic Gregorian ordinal of a calendar date, as Python
date.toordinal: day 1 is 0001-01-01. -/
def dateOrd (y m d : ℕ) : ℕ :=
  365 * (y - 1) + (y - 1) / 4 - (y - 1) / 100 + (y - 1) / 400
    + daysBeforeMonth y m + d

/-- Python round(x, 2) on the rational model of floats. -/
def round2 (x : ℚ) : ℚ := ((round (100 * x) : ℤ) : ℚ) / 100

/-! ### Data model of ngn_usdt_scapper.py -/

/-- One raw observation record, as consumed by interpolate_daily_rates:
a date, the two optional rate fields read via dict.get, and the source
labels read with defaults (modelled as always-present strings). -/
structure Obs where
  date : ℕ
  usdt_ngn_estimate : Option ℚ
  usd_ngn : Option ℚ
  source : String
  data_type : String
deriving DecidableEq

/-- The resolved per-date entry stored in the known_rates dict. -/
structure KnownEntry where
  rate : ℚ
  source : String
  data_type : String
deriving DecidableEq

/-- Output record of interpolate_daily_rates.  The usd_ngn and
usdt_ngn_estimate fields of the emitted dict are always equal, so a
single rate field models both. -/
structure DailyPoint where
  date : ℕ
  rate : ℚ
  source : String
  data_type : String
  interpolated : Bool
deriving DecidableEq

/-- Python `a or b` on two optional rate values: a if a is present and
nonzero (truthy), otherwise b. -/
def pyOr (a b : Option ℚ) : Option ℚ :=
  match a with
  | some v => if v = 0 then b else some v
  | none => b

/-- Python truthiness of an optional float: present and nonzero. -/
def optTruthy : Option ℚ → Bool
  | some v => v != 0
  | none => false

/-- The rate chosen for one observation:
point.get("usdt_ngn_estimate") or point.get("usd_ngn"). -/
def rateOf (p : Obs) : Option ℚ := pyOr p.usdt_ngn_estimate p.usd_ngn

/-- The known_rates entry built from one observation. -/
def mkEntry (p : Obs) : KnownEntry :=
  { rate := (rateOf p).getD 0, source := p.source, data_type := p.data_type }

/-- Stable sort of the observations by date
(sorted(data_points, key=lambda x: x["date"])); insertion sort is
stable and agrees extensionally with any stable sort by the same key. -/
def sortByDate (pts : List Obs) : List Obs :=
  List.insertionSort (fun a b => a.date ≤ b.date) pts

/-- The known_rates construction loop of interpolate_daily_rates:
walk the date-sorted points, and for each point whose chosen rate is
truthy and whose date is not yet a key, append the entry (Python dicts
preserve insertion order, and keys are inserted in ascending order, so
the association list is the dict together with its sorted key list). -/
def buildKnown : List Obs → List (ℕ × KnownEntry) → List (ℕ × KnownEntry)
  | [], acc => acc
  | p :: rest, acc =>
    if optTruthy (rateOf p) && (List.lookup p.date acc).isNone then
      buildKnown rest (acc ++ [(p.date, mkEntry p)])
    else
      buildKnown rest acc

/-- The merge phase of interpolate_daily_rates: sort, then resolve
duplicate dates and drop falsy rates while building known_rates. -/
def mergePoints (pts : List Obs) : List (ℕ × KnownEntry) :=
  buildKnown (sortByDate pts) []

/-- The prev/next scan of both interpolation loops over the sorted
known dates: every key below d overwrites prev, and the scan stops and
returns at the first key above d. -/
def scanPN {β : Type} (d : ℕ) :
    List (ℕ × β) → Option (ℕ × β) → Option (ℕ × β) × Option (ℕ × β)
  | [], prev => (prev, none)
  | x :: rest, prev =>
    if x.1 < d then scanPN d rest (some x)
    else if d < x.1 then (prev, some x)
    else scanPN d rest prev

/-- The per-day body of the daily loop of interpolate_daily_rates:
exact hit emits the stored entry unchanged; a bracketed day emits the
linear interpolation rounded to 2 decimals; a day after the last known
point emits the previous rate unchanged; a day before the first known
point emits nothing. -/
def emitA (tl : List (ℕ × KnownEntry)) (d : ℕ) : List DailyPoint :=
  match List.lookup d tl with
  | some e => [⟨d, e.rate, e.source, e.data_type, false⟩]
  | none =>
    match scanPN d tl none with
    | (some p, some n) =>
      let ir : ℚ := p.2.rate +
        (n.2.rate - p.2.rate) * (((d - p.1 : ℕ) : ℚ) / ((n.1 - p.1 : ℕ) : ℚ))
      [⟨d, round2 ir, "interpolated", "interpolated", true⟩]
    | (some p, none) => [⟨d, p.2.rate, "extrapolated", "extrapolated", true⟩]
    | (none, _) => []

/-- The daily while-loop of interpolate_daily_rates, by remaining day
count. -/
def fillLoopA (tl : List (ℕ × KnownEntry)) : ℕ → ℕ → List DailyPoint
  | _, 0 => []
  | c, f + 1 => emitA tl c ++ fillLoopA tl (c + 1) f

/-- The daily generation phase of interpolate_daily_rates on an
already-merged timeline: one loop iteration per day from start to
endD inclusive (when start > endD the loop body never runs). -/
def fillDailyRates (tl : List (ℕ × KnownEntry)) (start endD : ℕ) :
    List DailyPoint :=
  fillLoopA tl start (endD + 1 - start)

/-- interpolate_daily_rates of ngn_usdt_scapper.py: merge the raw data
points, then generate the daily series. -/
def interpolate_daily_rates (pts : List Obs) (start endD : ℕ) :
    List DailyPoint :=
  fillDailyRates (mergePoints pts) start endD

/-! ### ngn_usdt_scraper.py -/

/-- Output record of interpolate_daily: a bare date/rate pair. -/
structure DailyRec where
  date : ℕ
  rate : ℚ
deriving DecidableEq

/-- Per-day body of interpolate_daily of ngn_usdt_scraper.py.  The
branch structure is identical to emitA, but every branch rounds the
emitted value to 2 decimals, including the exact-hit and the
extrapolation branches. -/
def emitB (tl : List (ℕ × ℚ)) (d : ℕ) : List DailyRec :=
  match List.lookup d tl with
  | some r => [⟨d, round2 r⟩]
  | none =>
    match scanPN d tl none with
    | (some p, some n) =>
      let t : ℚ := ((d - p.1 : ℕ) : ℚ) / ((n.1 - p.1 : ℕ) : ℚ)
      [⟨d, round2 (p.2 + (n.2 - p.2) * t)⟩]
    | (some p, none) => [⟨d, round2 p.2⟩]
    | (none, _) => []

/-- The daily while-loop of interpolate_daily, by remaining day count. -/
def fillLoopB (tl : List (ℕ × ℚ)) : ℕ → ℕ → List DailyRec
  | _, 0 => []
  | c, f + 1 => emitB tl c ++ fillLoopB tl (c + 1) f

/-- interpolate_daily of ngn_usdt_scraper.py, over a known_rates
mapping given as an association list with ascending keys. -/
def interpolate_daily (tl : List (ℕ × ℚ)) (start endD : ℕ) : List DailyRec :=
  fillLoopB tl start (endD + 1 - start)

/-- Python dict.update as used by generate_daily_rates
(known_rates.update(PARALLEL_MARKET_RATES)): values of the second
mapping override those of the first, new keys are appended. -/
def pyUpdate {β : Type} (base upd : List (ℕ × β)) : List (ℕ × β) :=
  base.map (fun x => (x.1, (List.lookup x.1 upd).getD x.2))
    ++ upd.filter (fun x => (List.lookup x.1 base).isNone)

/-! ### unofficial_ngn_usdt_scraper.py -/

/-- One P2P quote as consumed by calculate_summary; only the price
field is read there. -/
structure Quote where
  price : ℚ
deriving DecidableEq

/-- The price list extracted from one side:
[r["price"] for r in rates if r.get("price")] — the truthiness filter
drops zero prices. -/
def pricesOf (l : List Quote) : List ℚ :=
  (l.filter (fun r => r.price ≠ 0)).map Quote.price

/-- min(prices) if prices else None. -/
def listMin : List ℚ → Option ℚ
  | [] => none
  | p :: ps => some (ps.foldl min p)

/-- max(prices) if prices else None. -/
def listMax : List ℚ → Option ℚ
  | [] => none
  | p :: ps => some (ps.foldl max p)

/-- sum(prices) / len(prices) if prices else None. -/
def listAvg (l : List ℚ) : Option ℚ :=
  match l with
  | [] => none
  | _ => some (l.sum / l.length)

/-- The summary produced by calculate_summary.  The constant string
fields (timestamp, currency_pair, source) carry no checkable content
and are omitted. -/
structure Summary where
  buy_count : ℕ
  buy_best : Option ℚ
  buy_worst : Option ℚ
  buy_avg : Option ℚ
  sell_count : ℕ
  sell_best : Option ℚ
  sell_worst : Option ℚ
  sell_avg : Option ℚ
  spread_percent : Option ℚ
  mid_rate : Option ℚ
deriving DecidableEq

/-- calculate_summary of unofficial_ngn_usdt_scraper.py.  The spread
and mid-rate fields start as None and are filled in only when both
averages are truthy (present and nonzero), exactly as the final
`if summary[...]["avg"] and summary[...]["avg"]` guard does. -/
def calculate_summary (buy_rates sell_rates : List Quote) : Summary :=
  let bp := pricesOf buy_rates
  let sp := pricesOf sell_rates
  let bavg := listAvg bp
  let savg := listAvg sp
  let base : Summary :=
    { buy_count := bp.length, buy_best := listMin bp,
      buy_worst := listMax bp, buy_avg := bavg,
      sell_count := sp.length, sell_best := listMax sp,
      sell_worst := listMin sp, sell_avg := savg,
      spread_percent := none, mid_rate := none }
  if optTruthy bavg && optTruthy savg then
    let ba := bavg.getD 0
    let sa := savg.getD 0
    { base with
        spread_percent := some ((ba - sa) / sa * 100),
        mid_rate := some ((ba + sa) / 2) }
  else base

/-- Keys of a timeline are strictly ascending (each prior entry has a
smaller date than each later one). -/
def SortedTL {β : Type} (tl : List (ℕ × β)) : Prop :=
  tl.Pairwise (fun a b => a.1 < b.1)

instance {β : Type} (tl : List (ℕ × β)) : Decidable (SortedTL tl) :=
  inferInstanceAs (Decidable (tl.Pairwise _))

instance : IsTotal Obs (fun a b => a.date ≤ b.date) :=
  ⟨fun a b => Nat.le_total a.date b.date⟩

instance : IsTrans Obs (fun a b => a.date ≤ b.date) :=
  ⟨fun _ _ _ h₁ h₂ => Nat.le_trans h₁ h₂⟩

/-! ### Concrete inputs used by witnesses and counterexamples -/

/-- A known entry with rate 362. -/
def we1 : KnownEntry := ⟨362, "hand", "parallel_market"⟩

/-- A known entry with rate 450. -/
def we2 : KnownEntry := ⟨450, "hand", "parallel_market"⟩

/-- A two-point timeline with keys 0 and 2. -/
def wtl1 : List (ℕ × KnownEntry) := [(0, we1), (2, we2)]

/-- The same timeline as a bare known_rates mapping. -/
def wtlB : List (ℕ × ℚ) := [(0, 362), (2, 450)]

/-- A two-point timeline whose first key is 5: a fill starting at day 1
hits days that precede every known date. -/
def ctl1 : List (ℕ × KnownEntry) := [(5, we1), (10, we2)]

/-- A timeline with rates 0.004 and 0.009 two days apart: the midpoint
interpolates to 0.0065, which rounds to 0.01, above both rates. -/
def ctl2 : List (ℕ × KnownEntry) :=
  [(0, ⟨1/250, "hand", "parallel_market"⟩),
   (2, ⟨9/1000, "hand", "parallel_market"⟩)]

/-- A rate with three decimals, 100.006, not fixed by 2-decimal
rounding. -/
def xrate : ℚ := 100006/1000

/-- A one-point known_rates mapping holding the rate 100.006. -/
def ctl3 : List (ℕ × ℚ) := [(0, xrate)]

/-- A one-point timeline holding the rate 100.006. -/
def ctlX : List (ℕ × KnownEntry) := [(0, ⟨xrate, "hand", "parallel_market"⟩)]

/-- The two hand-curated observations of the C6 example timeline:
2020-01-01 at rate 362 and 2020-06-01 at rate 450. -/
def pts6 : List Obs :=
  [⟨dateOrd 2020 1 1, some 362, none, "hand", "parallel_market"⟩,
   ⟨dateOrd 2020 6 1, some 450, none, "hand", "parallel_market"⟩]

/-- The C6 example timeline as a bare known_rates mapping. -/
def tl6B : List (ℕ × ℚ) :=
  [(dateOrd 2020 1 1, 362), (dateOrd 2020 6 1, 450)]

/-- A single observation with a positive rate. -/
def obsPos : Obs := ⟨0, some 5, none, "src", "typ"⟩

/-- A single observation with a negative rate: truthy in Python, hence
kept by the merge. -/
def obsNeg : Obs := ⟨0, some (-5), none, "src", "typ"⟩

/-- Two observations sharing date 0 with different rates and sources. -/
def obsA : Obs := ⟨0, some 1, none, "A", "t"⟩

/-- Second observation on date 0; under a last-wins policy it would
survive the merge. -/
def obsB : Obs := ⟨0, some 2, none, "B", "t"⟩

/-- A quote with price 0, as produced for a Bybit item with a missing
price field. -/
def q0 : Quote := ⟨0⟩

/-- A quote with price 5. -/
def q5 : Quote := ⟨5⟩

/-- A quote with price −5. -/
def qm5 : Quote := ⟨-5⟩

/-- A quote with price 10. -/
def q10 : Quote := ⟨10⟩

/-- The buy quote of the C9 example. -/
def q1600 : Quote := ⟨1600⟩

/-- The sell quote of the C9 example. -/
def q1550 : Quote := ⟨1550⟩

/-! ### Arithmetic facts about round2 -/

theorem round2_abs_sub (x : ℚ) : |round2 x - x| ≤ 1 / 200 := by
  have h := abs_sub_round (100 * x)
  have hx : round2 x - x = -((100 * x - ((round (100 * x) : ℤ) : ℚ)) / 100) := by
    rw [round2]; ring
  rw [hx, abs_neg, abs_div, show |(100 : ℚ)| = 100 by norm_num]
  linarith

theorem round2_round2 (x : ℚ) : round2 (round2 x) = round2 x := by
  simp only [round2]
  have h : (100 : ℚ) * (((round (100 * x) : ℤ) : ℚ) / 100)
      = ((round (100 * x) : ℤ) : ℚ) := by field_simp
  rw [h, round_intCast]

/-- A convex combination a + (b - a) * t with t in [0, 1] lies between
a and b. -/
theorem interp_between (a b t : ℚ) (h0 : 0 ≤ t) (h1 : t ≤ 1) :
    min a b ≤ a + (b - a) * t ∧ a + (b - a) * t ≤ max a b := by
  rcases le_total a b with hab | hab
  · rw [min_eq_left hab, max_eq_right hab]
    constructor <;> nlinarith
  · rw [min_eq_right hab, max_eq_left hab]
    constructor <;> nlinarith

/-! ### List helper lemmas -/

theorem getLast?_cons_or {α : Type} (y : α) (l : List α) :
    (y :: l).getLast? = l.getLast?.or (some y) := by
  cases l with
  | nil => rfl
  | cons a l' =>
    rw [List.getLast?_cons_cons]
    obtain ⟨z, hz⟩ := Option.isSome_iff_exists.mp
      (List.getLast?_isSome.mpr (by simp : a :: l' ≠ []))
    rw [hz, Option.or_some]

theorem lookup_eq_none_of_keys {β : Type} {l : List (ℕ × β)} {d : ℕ}
    (h : ∀ x ∈ l, x.1 ≠ d) : List.lookup d l = none := by
  rw [List.lookup_eq_none_iff]
  intro p hp
  simpa [bne_iff_ne] using fun he => (h p hp) he.symm

/-- In a timeline with strictly ascending keys the last entry has the
largest key. -/
theorem sorted_last_max {β : Type} :
    ∀ {l : List (ℕ × β)}, SortedTL l → ∀ {a}, l.getLast? = some a →
      ∀ x ∈ l, x.1 ≤ a.1 := by
  intro l
  induction l with
  | nil => intro _ a ha; simp at ha
  | cons y rest ih =>
    intro hs a ha x hx
    rcases List.pairwise_cons.mp hs with ⟨hy, hrest⟩
    cases rest with
    | nil =>
      rw [List.getLast?_singleton] at ha
      rcases List.mem_singleton.mp hx with rfl
      rcases Option.some_injective _ ha with rfl
      exact le_refl _
    | cons b rest' =>
      rw [List.getLast?_cons_cons] at ha
      rcases List.mem_cons.mp hx with rfl | hx
      · exact le_of_lt (hy a (List.mem_of_mem_getLast? (by simp [ha])))
      · exact ih hrest ha x hx

/-- find? commutes with a filter by a weaker predicate. -/
theorem find?_filter_of_imp {α : Type} (q t : α → Bool)
    (himp : ∀ p, q p = true → t p = true) :
    ∀ l : List α, List.find? q (l.filter t) = List.find? q l := by
  intro l
  induction l with
  | nil => rfl
  | cons p rest ih =>
    by_cases ht : t p = true
    · rw [List.filter_cons, if_pos ht, List.find?_cons, List.find?_cons]
      cases q p <;> simp [ih]
    · have hq : q p = false := by
        cases hqp : q p
        · rfl
        · exact absurd (himp p hqp) ht
      rw [List.filter_cons, if_neg ht, List.find?_cons, hq, ih]

/-! ### The prev/next scan -/

theorem scanPN_fst_isSome {β : Type} (d : ℕ) :
    ∀ (l : List (ℕ × β)) (x : ℕ × β),
      ((scanPN d l (some x)).1).isSome = true := by
  intro l
  induction l with
  | nil => intro x; rfl
  | cons y rest ih =>
    intro x
    rw [scanPN]
    by_cases h1 : y.1 < d
    · rw [if_pos h1]; exact ih y
    · rw [if_neg h1]
      by_cases h2 : d < y.1
      · rw [if_pos h2]; rfl
      · rw [if_neg h2]; exact ih x

/-- On a timeline with strictly ascending keys, the scan returns the
last entry before d (falling back to the accumulator) and the first
entry after d. -/
theorem scanPN_eq {β : Type} (d : ℕ) :
    ∀ (l : List (ℕ × β)), SortedTL l → ∀ (prev : Option (ℕ × β)),
      scanPN d l prev =
        (((l.filter (fun x => x.1 < d)).getLast?).or prev,
         l.find? (fun x => d < x.1)) := by
  intro l
  induction l with
  | nil => intro _ prev; simp [scanPN]
  | cons y rest ih =>
    intro hs prev
    rcases List.pairwise_cons.mp hs with ⟨hy, hrest⟩
    rw [scanPN]
    by_cases h1 : y.1 < d
    · rw [if_pos h1, ih hrest (some y),
        List.filter_cons_of_pos (by simpa using h1),
        getLast?_cons_or, Option.or_assoc, Option.or_some,
        List.find?_cons_of_neg _ (by simp; omega)]
    · rw [if_neg h1]
      by_cases h2 : d < y.1
      · have hfilter : (y :: rest).filter (fun x => x.1 < d) = [] := by
          rw [List.filter_eq_nil_iff]
          intro a ha
          rcases List.mem_cons.mp ha with rfl | ha
          · simp; omega
          · have := hy a ha; simp; omega
        rw [if_pos h2, hfilter,
          List.find?_cons_of_pos _ (by simpa using h2)]
        rfl
      · rw [if_neg h2, ih hrest prev,
          List.filter_cons_of_neg (by simpa using h1),
          List.find?_cons_of_neg _ (by simp; omega)]

/-! ### The per-day emitters and the daily loops -/

theorem emitA_date {tl : List (ℕ × KnownEntry)} {d : ℕ} :
    ∀ pt ∈ emitA tl d, pt.date = d := by
  intro pt hpt
  unfold emitA at hpt
  split at hpt
  · rcases List.mem_singleton.mp hpt with rfl; rfl
  · split at hpt
    · rcases List.mem_singleton.mp hpt with rfl; rfl
    · rcases List.mem_singleton.mp hpt with rfl; rfl
    · simp at hpt

theorem emitB_date {tl : List (ℕ × ℚ)} {d : ℕ} :
    ∀ r ∈ emitB tl d, r.date = d := by
  intro r hr
  unfold emitB at hr
  split at hr
  · rcases List.mem_singleton.mp hr with rfl; rfl
  · split at hr
    · rcases List.mem_singleton.mp hr with rfl; rfl
    · rcases List.mem_singleton.mp hr with rfl; rfl
    · simp at hr

/-- Once the head key is at or below the day, the per-day body always
emits exactly one point. -/
theorem emitA_singleton (k : ℕ) (v : KnownEntry)
    (rest : List (ℕ × KnownEntry)) (d : ℕ) (hle : k ≤ d) :
    ∃ pt, emitA ((k, v) :: rest) d = [pt] := by
  unfold emitA
  cases hlk : List.lookup d ((k, v) :: rest) with
  | some e => exact ⟨_, rfl⟩
  | none =>
    have hne : d ≠ k := by
      intro h
      rw [List.lookup_cons] at hlk
      simp [h] at hlk
    have hlt : k < d := by omega
    rw [scanPN, if_pos (by simpa using hlt)]
    have hsome := scanPN_fst_isSome d rest (k, v)
    rcases hp : scanPN d rest (some (k, v)) with ⟨p1, p2⟩
    rw [hp] at hsome
    rcases Option.isSome_iff_exists.mp hsome with ⟨p, rfl⟩
    cases p2 with
    | some n => exact ⟨_, rfl⟩
    | none => exact ⟨_, rfl⟩

theorem fillLoopA_eq (tl : List (ℕ × KnownEntry)) :
    ∀ (f c : ℕ), fillLoopA tl c f = (List.range' c f).flatMap (emitA tl) := by
  intro f
  induction f with
  | zero => intro c; rfl
  | succ f ih =>
    intro c
    rw [fillLoopA, List.range'_succ, List.flatMap_cons, ih]

theorem fillLoopB_eq (tl : List (ℕ × ℚ)) :
    ∀ (f c : ℕ), fillLoopB tl c f = (List.range' c f).flatMap (emitB tl) := by
  intro f
  induction f with
  | zero => intro c; rfl
  | succ f ih =>
    intro c
    rw [fillLoopB, List.range'_succ, List.flatMap_cons, ih]

/-- Over a range that starts at or after the head key, the loop emits
one point per day, in day order. -/
theorem fill_dates (k : ℕ) (v : KnownEntry) (rest : List (ℕ × KnownEntry)) :
    ∀ (f c : ℕ), k ≤ c →
      (fillLoopA ((k, v) :: rest) c f).map DailyPoint.date
        = List.range' c f := by
  intro f
  induction f with
  | zero => intro c _; rfl
  | succ f ih =>
    intro c hc
    rw [fillLoopA, List.range'_succ, List.map_append, ih (c + 1) (by omega)]
    rcases emitA_singleton k v rest c hc with ⟨pt, hpt⟩
    rw [hpt]
    have hdate : pt.date = c :=
      emitA_date pt (by rw [hpt]; exact List.mem_singleton.mpr rfl)
    simp [hdate]

/-! ### Claim C1 -/

/-- Counterexample to claim C1 as stated: the timeline ctl1 has two
distinct dated points (keys 5 and 10) and the range [1, 10] satisfies
start ≤ end, yet the engine emits only 6 DailyPoints instead of the
claimed (end − start).days + 1 = 10: days 1..4 precede the first known
date and are silently skipped. -/
theorem claim1_counterexample :
    SortedTL ctl1 ∧ 2 ≤ ctl1.length ∧ (1 : ℕ) ≤ 10
      ∧ (fillDailyRates ctl1 1 10).length = 6
      ∧ (fillDailyRates ctl1 1 10).length ≠ 10 - 1 + 1 := by
  decide

/-- Claim C1 (amended): for every timeline with at least two distinct
dated points (strictly ascending keys) and every range [start, endD]
with start ≤ endD whose start lies at or after the earliest known
date, the engine emits exactly one DailyPoint per calendar day: the
emitted date sequence is exactly start, start+1, ..., endD (hence no
duplicate and no missing date) and the output has (endD − start) + 1
elements. -/
theorem claim1_theorem (tl : List (ℕ × KnownEntry)) (h : ℕ × KnownEntry)
    (hsorted : SortedTL tl) (hlen : 2 ≤ tl.length) (hhead : tl.head? = some h)
    (start endD : ℕ) (hse : start ≤ endD) (hfirst : h.1 ≤ start) :
    (fillDailyRates tl start endD).map DailyPoint.date
        = List.range' start (endD - start + 1)
      ∧ (fillDailyRates tl start endD).length = endD - start + 1 := by
  cases tl with
  | nil => simp at hhead
  | cons y rest =>
    have hy : y = h := by simpa using hhead
    subst hy
    obtain ⟨k, v⟩ := y
    have h1 : endD + 1 - start = endD - start + 1 := by omega
    have hmap : (fillDailyRates ((k, v) :: rest) start endD).map DailyPoint.date
        = List.range' start (endD - start + 1) := by
      rw [fillDailyRates, h1]
      exact fill_dates k v rest _ start hfirst
    refine ⟨hmap, ?_⟩
    have := congrArg List.length hmap
    simpa using this

/-- Witness for claim C1 at the concrete timeline wtl1 and range
[0, 3]. -/
theorem claim1_witness :
    (SortedTL wtl1 ∧ 2 ≤ wtl1.length ∧ wtl1.head? = some (0, we1)
        ∧ (0 : ℕ) ≤ 3 ∧ (0, we1).1 ≤ 0)
      ∧ ((fillDailyRates wtl1 0 3).map DailyPoint.date
            = List.range' 0 (3 - 0 + 1)
          ∧ (fillDailyRates wtl1 0 3).length = 3 - 0 + 1) :=
  ⟨⟨by decide, by decide, by decide, by decide, by decide⟩,
   claim1_theorem wtl1 (0, we1) (by decide) (by decide) (by decide)
     0 3 (by decide) (by decide)⟩

/-! ### Claim C2 -/

/-- Counterexample to claim C2 as stated: on the timeline ctl2 the day
1 sits between the known points (0, 0.004) and (2, 0.009); the raw
interpolated value 0.0065 rounds to 0.01, which exceeds
max(prev.rate, next.rate) = 0.009, so the emitted rounded rate is not
bounded by the two bracketing rates. -/
theorem claim2_counterexample :
    SortedTL ctl2
      ∧ (fillDailyRates ctl2 1 1).map DailyPoint.rate = [1/100]
      ∧ ¬ ((1 : ℚ)/100 ≤ max ((1 : ℚ)/250) ((9 : ℚ)/1000)) := by
  refine ⟨by decide, by decide, ?_⟩
  rw [max_eq_right (by norm_num : (1 : ℚ)/250 ≤ 9/1000)]
  norm_num

/-- Claim C2 (amended): for every day strictly between two bracketing
known points prev and next of a sorted timeline, the emitted
interpolated rate lies between min(prev.rate, next.rate) and
max(prev.rate, next.rate) up to the half-cent error of the 2-decimal
rounding: min − 1/200 ≤ rate ≤ max + 1/200 (the unrounded value lies
exactly between the two rates). -/
theorem claim2_theorem (tl : List (ℕ × KnownEntry)) (hsorted : SortedTL tl)
    (d pd nd : ℕ) (pe qe : KnownEntry)
    (hmiss : List.lookup d tl = none)
    (hp : (tl.filter (fun x => x.1 < d)).getLast? = some (pd, pe))
    (hn : tl.find? (fun x => d < x.1) = some (nd, qe))
    (s e : ℕ) (hsd : s ≤ d) (hde : d ≤ e) :
    ∃ pt ∈ fillDailyRates tl s e,
      pt.date = d ∧ pt.source = "interpolated"
        ∧ min pe.rate qe.rate - 1/200 ≤ pt.rate
        ∧ pt.rate ≤ max pe.rate qe.rate + 1/200 := by
  have hpd_lt : pd < d := by
    have := (List.mem_filter.mp
      (List.mem_of_mem_getLast? (Option.mem_def.mpr hp))).2
    simpa using this
  have hnd_gt : d < nd := by
    have := List.find?_some hn
    simpa using this
  set t : ℚ := ((d - pd : ℕ) : ℚ) / ((nd - pd : ℕ) : ℚ) with ht
  have hemit : emitA tl d
      = [⟨d, round2 (pe.rate + (qe.rate - pe.rate) * t),
           "interpolated", "interpolated", true⟩] := by
    unfold emitA
    rw [hmiss, scanPN_eq d tl hsorted none, hp, hn, Option.or_none]
  have ht0 : 0 ≤ t := div_nonneg (Nat.cast_nonneg _) (Nat.cast_nonneg _)
  have hdenpos : (0 : ℚ) < ((nd - pd : ℕ) : ℚ) := by
    have h0 : 0 < nd - pd := by omega
    exact_mod_cast h0
  have ht1 : t ≤ 1 := by
    rw [ht, div_le_one hdenpos]
    have h0 : d - pd ≤ nd - pd := by omega
    exact_mod_cast h0
  obtain ⟨hlo, hhi⟩ := interp_between pe.rate qe.rate t ht0 ht1
  obtain ⟨habs1, habs2⟩ :=
    abs_le.mp (round2_abs_sub (pe.rate + (qe.rate - pe.rate) * t))
  have hdmem : d ∈ List.range' s (e + 1 - s) :=
    List.mem_range'_1.mpr ⟨hsd, by omega⟩
  refine ⟨⟨d, round2 (pe.rate + (qe.rate - pe.rate) * t),
      "interpolated", "interpolated", true⟩, ?_, rfl, rfl, ?_, ?_⟩
  · rw [fillDailyRates, fillLoopA_eq]
    exact List.mem_flatMap.mpr
      ⟨d, hdmem, by rw [hemit]; exact List.mem_singleton.mpr rfl⟩
  · dsimp only
    linarith
  · dsimp only
    linarith

/-- Witness for claim C2 at the timeline wtl1 (rates 362 and 450 two
days apart) and the in-between day 1 of the range [0, 2]. -/
theorem claim2_witness :
    (SortedTL wtl1 ∧ List.lookup 1 wtl1 = none
        ∧ (wtl1.filter (fun x => x.1 < 1)).getLast? = some (0, we1)
        ∧ wtl1.find? (fun x => 1 < x.1) = some (2, we2))
      ∧ ∃ pt ∈ fillDailyRates wtl1 0 2,
          pt.date = 1 ∧ pt.source = "interpolated"
            ∧ min we1.rate we2.rate - 1/200 ≤ pt.rate
            ∧ pt.rate ≤ max we1.rate we2.rate + 1/200 :=
  ⟨⟨by decide, by decide, by decide, by decide⟩,
   claim2_theorem wtl1 (by decide) 1 0 2 we1 we2 (by decide) (by decide)
     (by decide) 0 2 (by decide) (by decide)⟩

/-! ### Claim C3 -/

/-- Counterexample to claim C3 as stated: the claim covers both
engines, but interpolate_daily (ngn_usdt_scraper.py) rounds the
extrapolated value: with last known rate 100.006, the day after emits
100.01, not the stored rate unchanged. -/
theorem claim3_counterexample :
    SortedTL ctl3 ∧ ctl3.getLast? = some (0, xrate)
      ∧ interpolate_daily ctl3 1 1 = [⟨1, 10001/100⟩]
      ∧ (10001 : ℚ)/100 ≠ xrate := by
  decide

/-- Claim C3 (amended): for every sorted non-empty timeline and every
emitted day strictly after the last known date,
interpolate_daily_rates emits the last known rate exactly, with
source and data_type "extrapolated" (and the interpolated flag set),
while interpolate_daily of ngn_usdt_scraper.py emits the last known
rate rounded to 2 decimals. -/
theorem claim3_theorem (tl : List (ℕ × KnownEntry)) (tlB : List (ℕ × ℚ))
    (hsorted : SortedTL tl) (hsortedB : SortedTL tlB)
    (la : ℕ × KnownEntry) (hla : tl.getLast? = some la)
    (lb : ℕ × ℚ) (hlb : tlB.getLast? = some lb) (s e : ℕ) :
    (∀ pt ∈ fillDailyRates tl s e, la.1 < pt.date →
        pt.rate = la.2.rate ∧ pt.source = "extrapolated"
          ∧ pt.data_type = "extrapolated" ∧ pt.interpolated = true)
      ∧ (∀ r ∈ interpolate_daily tlB s e, lb.1 < r.date →
          r.rate = round2 lb.2) := by
  constructor
  · intro pt hpt hlast
    rw [fillDailyRates, fillLoopA_eq] at hpt
    rcases List.mem_flatMap.mp hpt with ⟨day, _, hptday⟩
    have hdate : pt.date = day := emitA_date pt hptday
    rw [hdate] at hlast
    have hkeys : ∀ x ∈ tl, x.1 ≤ la.1 := sorted_last_max hsorted hla
    have hmiss : List.lookup day tl = none :=
      lookup_eq_none_of_keys (fun x hx => by have := hkeys x hx; omega)
    have hfilter : tl.filter (fun x => x.1 < day) = tl :=
      List.filter_eq_self.mpr (fun x hx => by
        have := hkeys x hx; simp; omega)
    have hfind : tl.find? (fun x => day < x.1) = none :=
      List.find?_eq_none.mpr (fun x hx => by
        have := hkeys x hx; simp; omega)
    have hemit : emitA tl day
        = [⟨day, la.2.rate, "extrapolated", "extrapolated", true⟩] := by
      unfold emitA
      rw [hmiss, scanPN_eq day tl hsorted none, hfilter, hfind, hla,
        Option.or_none]
    rw [hemit] at hptday
    rcases List.mem_singleton.mp hptday with rfl
    exact ⟨rfl, rfl, rfl, rfl⟩
  · intro r hr hlast
    rw [interpolate_daily, fillLoopB_eq] at hr
    rcases List.mem_flatMap.mp hr with ⟨day, _, hrday⟩
    have hdate : r.date = day := emitB_date r hrday
    rw [hdate] at hlast
    have hkeys : ∀ x ∈ tlB, x.1 ≤ lb.1 := sorted_last_max hsortedB hlb
    have hmiss : List.lookup day tlB = none :=
      lookup_eq_none_of_keys (fun x hx => by have := hkeys x hx; omega)
    have hfilter : tlB.filter (fun x => x.1 < day) = tlB :=
      List.filter_eq_self.mpr (fun x hx => by
        have := hkeys x hx; simp; omega)
    have hfind : tlB.find? (fun x => day < x.1) = none :=
      List.find?_eq_none.mpr (fun x hx => by
        have := hkeys x hx; simp; omega)
    have hemit : emitB tlB day = [⟨day, round2 lb.2⟩] := by
      unfold emitB
      rw [hmiss, scanPN_eq day tlB hsortedB none, hfilter, hfind, hlb,
        Option.or_none]
    rw [hemit] at hrday
    rcases List.mem_singleton.mp hrday with rfl
    rfl

/-- Witness for claim C3 at the timelines wtl1 / wtlB (last known
point at day 2) and the range [0, 4], whose days 3 and 4 lie after the
last known date. -/
theorem claim3_witness :
    (SortedTL wtl1 ∧ SortedTL wtlB ∧ wtl1.getLast? = some (2, we2)
        ∧ wtlB.getLast? = some (2, 450))
      ∧ ((∀ pt ∈ fillDailyRates wtl1 0 4, (2, we2).1 < pt.date →
            pt.rate = (2, we2).2.rate ∧ pt.source = "extrapolated"
              ∧ pt.data_type = "extrapolated" ∧ pt.interpolated = true)
          ∧ (∀ r ∈ interpolate_daily wtlB 0 4, (2, (450 : ℚ)).1 < r.date →
              r.rate = round2 (2, (450 : ℚ)).2)) :=
  ⟨⟨by decide, by decide, by decide, by decide⟩,
   claim3_theorem wtl1 wtlB (by decide) (by decide) (2, we2) (by decide)
     (2, 450) (by decide) 0 4⟩

/-! ### Claim C7 -/

/-- Counterexample to claim C7 as stated: interpolate_daily rounds the
stored value even on an exact hit: with stored rate 100.006 at day 0,
filling [0, 0] returns 100.01, not the stored rate. -/
theorem claim7_counterexample :
    List.lookup 0 ctl3 = some xrate
      ∧ interpolate_daily ctl3 0 0 = [⟨0, 10001/100⟩]
      ∧ (10001 : ℚ)/100 ≠ xrate := by
  decide

/-- Claim C7 (amended): for every date d that is an exact key of the
timeline, filling the one-day range [d, d] emits a single DailyPoint:
interpolate_daily_rates carries the stored rate, source label and
data_type unchanged with the interpolated flag false, while
interpolate_daily of ngn_usdt_scraper.py carries the stored rate
rounded to 2 decimals. -/
theorem claim7_theorem (tl : List (ℕ × KnownEntry)) (tlB : List (ℕ × ℚ))
    (d : ℕ) (v : KnownEntry) (hv : List.lookup d tl = some v)
    (r : ℚ) (hr : List.lookup d tlB = some r) :
    fillDailyRates tl d d = [⟨d, v.rate, v.source, v.data_type, false⟩]
      ∧ interpolate_daily tlB d d = [⟨d, round2 r⟩] := by
  have h1 : d + 1 - d = 1 := by omega
  constructor
  · rw [fillDailyRates, h1, fillLoopA_eq, List.range'_one]
    simp only [List.flatMap_cons, List.flatMap_nil, List.append_nil]
    unfold emitA
    rw [hv]
  · rw [interpolate_daily, h1, fillLoopB_eq, List.range'_one]
    simp only [List.flatMap_cons, List.flatMap_nil, List.append_nil]
    unfold emitB
    rw [hr]

/-- Witness for claim C7 at day 0 of the timelines wtl1 / wtlB. -/
theorem claim7_witness :
    (List.lookup 0 wtl1 = some we1 ∧ List.lookup 0 wtlB = some 362)
      ∧ (fillDailyRates wtl1 0 0
            = [⟨0, we1.rate, we1.source, we1.data_type, false⟩]
          ∧ interpolate_daily wtlB 0 0 = [⟨0, round2 362⟩]) :=
  ⟨⟨by decide, by decide⟩,
   claim7_theorem wtl1 wtlB 0 we1 (by decide) 362 (by decide)⟩

/-! ### Claim C10 -/

/-- Counterexample to claim C10 as stated: on the same one-point
mapping (day 0 at rate 100.006) the two engines disagree on the
emitted rate for day 0: interpolate_daily_rates emits 100.006,
interpolate_daily emits the rounded 100.01. -/
theorem claim10_counterexample :
    (fillDailyRates ctlX 0 0).map DailyPoint.rate = [xrate]
      ∧ (interpolate_daily (ctlX.map (fun x => (x.1, x.2.rate))) 0 0).map
          DailyRec.rate = [10001/100]
      ∧ xrate ≠ (10001 : ℚ)/100 := by
  decide

theorem lookup_map_rate (tl : List (ℕ × KnownEntry)) (d : ℕ) :
    List.lookup d (tl.map (fun x => (x.1, x.2.rate)))
      = (List.lookup d tl).map KnownEntry.rate := by
  induction tl with
  | nil => rfl
  | cons y rest ih =>
    obtain ⟨k, v⟩ := y
    cases hdk : d == k
    · simp only [List.map_cons, List.lookup_cons, hdk, ih]
    · simp only [List.map_cons, List.lookup_cons, hdk, Option.map_some']

/-- The prev/next scan commutes with projecting entries to bare
rates. -/
theorem scanPN_map (d : ℕ) :
    ∀ (l : List (ℕ × KnownEntry)) (prev : Option (ℕ × KnownEntry)),
      scanPN d (l.map (fun x => (x.1, x.2.rate)))
          (prev.map (fun x => (x.1, x.2.rate)))
        = ((scanPN d l prev).1.map (fun x => (x.1, x.2.rate)),
           (scanPN d l prev).2.map (fun x => (x.1, x.2.rate))) := by
  intro l
  induction l with
  | nil => intro prev; rfl
  | cons y rest ih =>
    intro prev
    rw [List.map_cons, scanPN, scanPN]
    by_cases h1 : y.1 < d
    · rw [if_pos h1, if_pos (show ((fun x : ℕ × KnownEntry =>
        (x.1, x.2.rate)) y).1 < d from h1)]
      exact ih (some y)
    · rw [if_neg h1, if_neg (show ¬ ((fun x : ℕ × KnownEntry =>
        (x.1, x.2.rate)) y).1 < d from h1)]
      by_cases h2 : d < y.1
      · rw [if_pos h2, if_pos (show d < ((fun x : ℕ × KnownEntry =>
          (x.1, x.2.rate)) y).1 from h2)]
        rfl
      · rw [if_neg h2, if_neg (show ¬ d < ((fun x : ℕ × KnownEntry =>
          (x.1, x.2.rate)) y).1 from h2)]
        exact ih prev

/-- Per-day refinement: the scraper.py body equals the scapper.py body
with the rate rounded to 2 decimals. -/
theorem emitB_map (tl : List (ℕ × KnownEntry)) (d : ℕ) :
    emitB (tl.map (fun x => (x.1, x.2.rate))) d
      = (emitA tl d).map (fun pt => ⟨pt.date, round2 pt.rate⟩) := by
  unfold emitA emitB
  rw [lookup_map_rate]
  cases hv : List.lookup d tl with
  | some v => rfl
  | none =>
    have hscan := scanPN_map d tl none
    rw [Option.map_none'] at hscan
    rcases hres : scanPN d tl none with ⟨p1, p2⟩
    rw [hres] at hscan
    rw [hscan]
    cases p1 with
    | none => rfl
    | some p =>
      cases p2 with
      | none => rfl
      | some n => simp [round2_round2]

/-- Claim C10 (corrected form): interpolate_daily of
ngn_usdt_scraper.py agrees with interpolate_daily_rates of
ngn_usdt_scapper.py up to 2-decimal rounding: on the same known-rates
mapping it emits exactly the same dates, each carrying the
scapper-engine rate rounded to 2 decimals (so the rates coincide on
interpolated days, which both engines round, and differ by the final
rounding on exact and extrapolated days). -/
theorem claim10_theorem (tl : List (ℕ × KnownEntry)) (s e : ℕ) :
    interpolate_daily (tl.map (fun x => (x.1, x.2.rate))) s e
      = (fillDailyRates tl s e).map (fun pt => ⟨pt.date, round2 pt.rate⟩) := by
  rw [interpolate_daily, fillDailyRates, fillLoopB_eq, fillLoopA_eq,
    List.map_flatMap]
  congr 1
  funext day
  exact emitB_map tl day

/-! ### Merge lemmas -/

theorem sortByDate_cons (p : Obs) (rest : List Obs) :
    sortByDate (p :: rest)
      = List.orderedInsert (fun a b => a.date ≤ b.date) p (sortByDate rest) :=
  rfl

/-- Inserting an observation does not disturb the subsequence of
observations carrying any fixed date: the inserted element lands in
front of every element of its own date (all skipped elements have a
strictly smaller date). -/
theorem filter_orderedInsert_key (d : ℕ) (a : Obs) :
    ∀ l : List Obs,
      (List.orderedInsert (fun x y : Obs => x.date ≤ y.date) a l).filter
          (fun p => p.date == d)
        = if (a.date == d) = true
          then a :: l.filter (fun p => p.date == d)
          else l.filter (fun p => p.date == d) := by
  intro l
  induction l with
  | nil =>
    by_cases had : (a.date == d) = true
    · simp [List.orderedInsert, List.filter_cons, had]
    · simp [List.orderedInsert, List.filter_cons, had]
  | cons b l' ih =>
    rw [List.orderedInsert]
    by_cases hr : a.date ≤ b.date
    · rw [if_pos hr]
      by_cases had : (a.date == d) = true
      · rw [List.filter_cons_of_pos (by exact had), if_pos had]
      · rw [List.filter_cons_of_neg (by simp [had]), if_neg had]
    · rw [if_neg hr]
      by_cases hbd : (b.date == d) = true
      · rw [List.filter_cons_of_pos (by exact hbd), ih]
        by_cases had : (a.date == d) = true
        · exfalso
          have h1 : a.date = d := by simpa using had
          have h2 : b.date = d := by simpa using hbd
          omega
        · rw [if_neg had, if_neg had, List.filter_cons_of_pos (by exact hbd)]
      · rw [List.filter_cons_of_neg (by simp [hbd]), ih]
        by_cases had : (a.date == d) = true
        · rw [if_pos had, if_pos had, List.filter_cons_of_neg (by simp [hbd])]
        · rw [if_neg had, if_neg had, List.filter_cons_of_neg (by simp [hbd])]

/-- The stable sort preserves the subsequence of observations of any
fixed date. -/
theorem filter_sortByDate_key (d : ℕ) :
    ∀ pts : List Obs,
      (sortByDate pts).filter (fun p => p.date == d)
        = pts.filter (fun p => p.date == d) := by
  intro pts
  induction pts with
  | nil => rfl
  | cons p rest ih =>
    rw [sortByDate_cons, filter_orderedInsert_key]
    by_cases hpd : (p.date == d) = true
    · rw [if_pos hpd, ih, List.filter_cons_of_pos (by exact hpd)]
    · rw [if_neg hpd, ih, List.filter_cons_of_neg (by simp [hpd])]

theorem optTruthy_spec (o : Option ℚ) :
    optTruthy o = true ↔ ∃ v, o = some v ∧ v ≠ 0 := by
  cases o with
  | none => simp [optTruthy]
  | some v => simp [optTruthy, bne_iff_ne]

/-- Lookup through the known_rates construction: an entry found in the
accumulator wins, otherwise the first remaining observation with the
right date and a truthy rate provides the entry. -/
theorem lookup_buildKnown (d : ℕ) :
    ∀ (l : List Obs) (acc : List (ℕ × KnownEntry)),
      List.lookup d (buildKnown l acc)
        = (List.lookup d acc).or
            ((l.find? (fun p => p.date == d && optTruthy (rateOf p))).map
              mkEntry) := by
  intro l
  induction l with
  | nil =>
    intro acc
    rw [buildKnown]
    simp [Option.or_none]
  | cons p rest ih =>
    intro acc
    rw [buildKnown]
    by_cases hc : (optTruthy (rateOf p)
        && (List.lookup p.date acc).isNone) = true
    · obtain ⟨htr, hnone⟩ : optTruthy (rateOf p) = true
          ∧ (List.lookup p.date acc).isNone = true := by
        rw [Bool.and_eq_true] at hc; exact hc
      rw [if_pos hc, ih, List.lookup_append]
      by_cases hpd : (p.date == d) = true
      · have hd : p.date = d := by simpa using hpd
        rw [List.find?_cons_of_pos _ (by rw [hpd, htr]; rfl)]
        have hone : List.lookup d [(p.date, mkEntry p)] = some (mkEntry p) := by
          rw [hd]; simp [List.lookup_cons]
        rw [hone, Option.map_some', Option.or_assoc, Option.or_some]
      · rw [List.find?_cons_of_neg _ (by simp [hpd])]
        have hne : d ≠ p.date := fun h => by simp [h] at hpd
        have hbf : (d == p.date) = false := by simpa using hne
        have hone : List.lookup d [(p.date, mkEntry p)] = none := by
          simp [List.lookup_cons, hbf]
        rw [hone, Option.or_none]
    · rw [if_neg hc, ih]
      by_cases htr : optTruthy (rateOf p) = true
      · have hnone : (List.lookup p.date acc).isNone = false := by
          cases hn : (List.lookup p.date acc).isNone
          · rfl
          · exact absurd (by rw [htr, hn]; rfl) hc
        by_cases hpd : (p.date == d) = true
        · have hd : p.date = d := by simpa using hpd
          obtain ⟨e, he⟩ : ∃ e, List.lookup p.date acc = some e := by
            cases hl : List.lookup p.date acc with
            | none => rw [hl] at hnone; simp at hnone
            | some e => exact ⟨e, rfl⟩
          rw [hd] at he
          rw [List.find?_cons_of_pos _ (by rw [hpd, htr]; rfl), he,
            Option.map_some', Option.or_some, Option.or_some]
        · rw [List.find?_cons_of_neg _ (by simp [hpd])]
      · have htr' : optTruthy (rateOf p) = false := by
          cases h : optTruthy (rateOf p)
          · rfl
          · exact absurd h htr
        rw [List.find?_cons_of_neg _ (by simp [htr'])]

/-- The accumulator of the known_rates construction keeps strictly
ascending keys when fed date-sorted observations whose dates dominate
the accumulated keys. -/
theorem buildKnown_sorted :
    ∀ (l : List Obs) (acc : List (ℕ × KnownEntry)),
      l.Pairwise (fun a b => a.date ≤ b.date) → SortedTL acc →
      (∀ p ∈ l, ∀ x ∈ acc, x.1 ≤ p.date) →
      SortedTL (buildKnown l acc) := by
  intro l
  induction l with
  | nil => intro acc _ hacc _; rw [buildKnown]; exact hacc
  | cons p rest ih =>
    intro acc hl hacc hbound
    rcases List.pairwise_cons.mp hl with ⟨hp, hrest⟩
    rw [buildKnown]
    by_cases hc : (optTruthy (rateOf p)
        && (List.lookup p.date acc).isNone) = true
    · rw [if_pos hc]
      have hnone : List.lookup p.date acc = none := by
        rw [Bool.and_eq_true] at hc
        exact Option.isNone_iff_eq_none.mp hc.2
      have hnotmem : ∀ x ∈ acc, x.1 ≠ p.date := by
        intro x hx heq
        rw [List.lookup_eq_none_iff] at hnone
        have hcontra := hnone x hx
        simp [heq] at hcontra
      apply ih
      · exact hrest
      · rw [SortedTL, List.pairwise_append]
        refine ⟨hacc, by simp, ?_⟩
        intro a ha b hb
        rcases List.mem_singleton.mp hb with rfl
        have h1 := hbound p (by simp) a ha
        exact lt_of_le_of_ne h1 (hnotmem a ha)
      · intro q hq x hx
        rcases List.mem_append.mp hx with hx | hx
        · exact hbound q (by simp [hq]) x hx
        · rcases List.mem_singleton.mp hx with rfl
          exact hp q hq
    · rw [if_neg hc]
      apply ih _ hrest hacc
      intro q hq x hx
      exact hbound q (by simp [hq]) x hx

theorem mergePoints_sorted (pts : List Obs) : SortedTL (mergePoints pts) := by
  rw [mergePoints]
  apply buildKnown_sorted
  · exact List.sorted_insertionSort _ pts
  · exact List.Pairwise.nil
  · intro _ _ x hx
    simp at hx

/-- Every rate stored by the known_rates construction is nonzero. -/
theorem buildKnown_rates :
    ∀ (l : List Obs) (acc : List (ℕ × KnownEntry)),
      (∀ x ∈ acc, x.2.rate ≠ 0) →
      ∀ x ∈ buildKnown l acc, x.2.rate ≠ 0 := by
  intro l
  induction l with
  | nil => intro acc hacc x hx; rw [buildKnown] at hx; exact hacc x hx
  | cons p rest ih =>
    intro acc hacc x hx
    rw [buildKnown] at hx
    by_cases hc : (optTruthy (rateOf p)
        && (List.lookup p.date acc).isNone) = true
    · rw [if_pos hc] at hx
      refine ih _ ?_ x hx
      intro z hz
      rcases List.mem_append.mp hz with hz | hz
      · exact hacc z hz
      · rcases List.mem_singleton.mp hz with rfl
        rw [Bool.and_eq_true] at hc
        rcases (optTruthy_spec _).mp hc.1 with ⟨v, hv, hv0⟩
        simp only [mkEntry, hv, Option.getD_some]
        exact hv0
    · rw [if_neg hc] at hx
      exact ih _ hacc x hx

/-! ### dict.update lemmas -/

theorem lookup_map_getD {β : Type} (upd : List (ℕ × β)) (d : ℕ) :
    ∀ base : List (ℕ × β),
      List.lookup d
          (base.map (fun x => (x.1, (List.lookup x.1 upd).getD x.2)))
        = (List.lookup d base).map (fun v => (List.lookup d upd).getD v) := by
  intro base
  induction base with
  | nil => rfl
  | cons x rest ih =>
    obtain ⟨k, v⟩ := x
    cases hdk : d == k
    · simp only [List.map_cons, List.lookup_cons, hdk, ih]
    · have hd : d = k := by simpa using hdk
      subst hd
      simp [List.lookup_cons]

theorem lookup_filter_isNone {β : Type} (base : List (ℕ × β)) (d : ℕ) :
    ∀ upd : List (ℕ × β),
      List.lookup d (upd.filter (fun x => (List.lookup x.1 base).isNone))
        = if (List.lookup d base).isNone = true
          then List.lookup d upd else none := by
  intro upd
  induction upd with
  | nil => simp
  | cons u rest ih =>
    obtain ⟨k, v⟩ := u
    by_cases hk : (List.lookup k base).isNone = true
    · rw [List.filter_cons_of_pos (by simpa using hk)]
      cases hdk : d == k
      · simp only [List.lookup_cons, hdk, ih]
      · have hd : d = k := by simpa using hdk
        subst hd
        rw [if_pos hk]
        simp [List.lookup_cons]
    · rw [List.filter_cons_of_neg (by simpa using hk), ih]
      cases hdk : d == k
      · simp only [List.lookup_cons, hdk]
      · have hd : d = k := by simpa using hdk
        subst hd
        have hkf : (List.lookup d base).isNone = false := by
          cases h : (List.lookup d base).isNone
          · rfl
          · exact absurd h hk
        rw [hkf]
        simp

/-- dict.update semantics: a lookup in the updated mapping prefers the
second mapping and falls back to the first. -/
theorem lookup_pyUpdate {β : Type} (base upd : List (ℕ × β)) (d : ℕ) :
    List.lookup d (pyUpdate base upd)
      = (List.lookup d upd).or (List.lookup d base) := by
  rw [pyUpdate, List.lookup_append, lookup_map_getD, lookup_filter_isNone]
  cases hb : List.lookup d base with
  | some v =>
    cases hu : List.lookup d upd with
    | some w => simp [hu]
    | none => simp [hu]
  | none =>
    simp

/-! ### Claim C4 -/

/-- Counterexample to claim C4 as stated: the observations obsA and
obsB share date 0 (and the code has no trustTier, so under the
claimed last-wins tie-break obsB would survive); the merge of
interpolate_daily_rates keeps the FIRST-seen observation obsA
instead. -/
theorem claim4_counterexample :
    mergePoints [obsA, obsB] = [(0, mkEntry obsA)]
      ∧ mkEntry obsA ≠ mkEntry obsB
      ∧ mergePoints [obsA, obsB] ≠ [(0, mkEntry obsB)] := by
  decide

/-- Claim C4 (amended): the code consults no trustTier.  In
interpolate_daily_rates the merge sorts stably by date and resolves
each duplicate date by retaining the FIRST input observation with
that date and a truthy rate (first-wins, not last-wins): the merged
timeline has strictly ascending keys, and its entry at any date d is
exactly mkEntry of the first observation in the input with date d and
truthy rate — so observations with distinct dates and truthy rates
are all preserved, one entry per distinct valid date.  In
generate_daily_rates (ngn_usdt_scraper.py) the merge is dict.update,
whose lookup prefers the updating mapping (the curated table)
over the base mapping (World Bank) on shared dates. -/
theorem claim4_theorem :
    (∀ pts : List Obs, SortedTL (mergePoints pts))
      ∧ (∀ (pts : List Obs) (d : ℕ),
          List.lookup d (mergePoints pts)
            = (pts.find? (fun p => p.date == d && optTruthy (rateOf p))).map
                mkEntry)
      ∧ (∀ (base upd : List (ℕ × ℚ)) (d : ℕ),
          List.lookup d (pyUpdate base upd)
            = (List.lookup d upd).or (List.lookup d base)) := by
  refine ⟨mergePoints_sorted, ?_, fun base upd d => lookup_pyUpdate base upd d⟩
  intro pts d
  rw [mergePoints, lookup_buildKnown]
  rw [show List.lookup d ([] : List (ℕ × KnownEntry)) = none from rfl,
    Option.none_or]
  congr 1
  have himp : ∀ p : Obs,
      (fun p : Obs => p.date == d && optTruthy (rateOf p)) p = true →
      (fun p : Obs => p.date == d) p = true := by
    intro p h
    rw [Bool.and_eq_true] at h
    exact h.1
  calc List.find? (fun p => p.date == d && optTruthy (rateOf p)) (sortByDate pts)
      = List.find? (fun p => p.date == d && optTruthy (rateOf p))
          ((sortByDate pts).filter (fun p => p.date == d)) :=
        (find?_filter_of_imp _ _ himp _).symm
    _ = List.find? (fun p => p.date == d && optTruthy (rateOf p))
          (pts.filter (fun p => p.date == d)) := by
        rw [filter_sortByDate_key]
    _ = List.find? (fun p => p.date == d && optTruthy (rateOf p)) pts :=
        find?_filter_of_imp _ _ himp _

/-! ### Claim C5 -/

/-- Counterexample to claim C5 as stated: an observation with the
negative rate −5 is truthy in Python, so the merge keeps it, and the
engine emits it: rate > 0 fails both for the merged timeline and for
the emitted DailyPoint. -/
theorem claim5_counterexample :
    mergePoints [obsNeg] = [(0, ⟨-5, "src", "typ"⟩)]
      ∧ (fillDailyRates (mergePoints [obsNeg]) 0 0).map DailyPoint.rate = [-5]
      ∧ ¬ (0 : ℚ) < -5 := by
  refine ⟨by decide, by decide, ?_⟩
  norm_num

/-- Claim C5 (amended): the merge drops observations whose rate is
missing or zero (Python falsy), so every entry of the merged timeline
has a NONZERO rate; negative rates are not dropped, so rate > 0 does
not hold in general. -/
theorem claim5_theorem (pts : List Obs) (x : ℕ × KnownEntry)
    (hx : x ∈ mergePoints pts) : x.2.rate ≠ 0 := by
  rw [mergePoints] at hx
  refine buildKnown_rates _ _ ?_ x hx
  intro z hz
  simp at hz

/-- Witness for claim C5 at the single positive observation obsPos. -/
theorem claim5_witness :
    ((0, mkEntry obsPos) ∈ mergePoints [obsPos])
      ∧ (0, mkEntry obsPos).2.rate ≠ 0 :=
  ⟨by decide, claim5_theorem [obsPos] _ (by decide)⟩

/-! ### Summary aggregation lemmas -/

theorem foldl_min_mem (ps : List ℚ) : ∀ p : ℚ, ps.foldl min p ∈ p :: ps := by
  induction ps with
  | nil => intro p; simp
  | cons q qs ih =>
    intro p
    rw [List.foldl_cons]
    rcases List.mem_cons.mp (ih (min p q)) with h1 | h1
    · rw [h1]
      rcases min_choice p q with h | h <;> simp [h]
    · exact List.mem_cons_of_mem _ (List.mem_cons_of_mem _ h1)

theorem foldl_min_le (ps : List ℚ) :
    ∀ p : ℚ, ∀ x ∈ p :: ps, ps.foldl min p ≤ x := by
  induction ps with
  | nil =>
    intro p x hx
    rcases List.mem_singleton.mp hx with rfl
    exact le_refl _
  | cons q qs ih =>
    intro p x hx
    rw [List.foldl_cons]
    rcases List.mem_cons.mp hx with rfl | hx'
    · exact le_trans (ih (min x q) (min x q) (by simp)) (min_le_left x q)
    rcases List.mem_cons.mp hx' with rfl | hx''
    · exact le_trans (ih (min p x) (min p x) (by simp)) (min_le_right p x)
    · exact ih (min p q) x (by simp [hx''])

theorem foldl_max_mem (ps : List ℚ) : ∀ p : ℚ, ps.foldl max p ∈ p :: ps := by
  induction ps with
  | nil => intro p; simp
  | cons q qs ih =>
    intro p
    rw [List.foldl_cons]
    rcases List.mem_cons.mp (ih (max p q)) with h1 | h1
    · rw [h1]
      rcases max_choice p q with h | h <;> simp [h]
    · exact List.mem_cons_of_mem _ (List.mem_cons_of_mem _ h1)

theorem foldl_max_ge (ps : List ℚ) :
    ∀ p : ℚ, ∀ x ∈ p :: ps, x ≤ ps.foldl max p := by
  induction ps with
  | nil =>
    intro p x hx
    rcases List.mem_singleton.mp hx with rfl
    exact le_refl _
  | cons q qs ih =>
    intro p x hx
    rw [List.foldl_cons]
    rcases List.mem_cons.mp hx with rfl | hx'
    · exact le_trans (le_max_left x q) (ih (max x q) (max x q) (by simp))
    rcases List.mem_cons.mp hx' with rfl | hx''
    · exact le_trans (le_max_right p x) (ih (max p x) (max p x) (by simp))
    · exact ih (max p q) x (by simp [hx''])

/-- The eight one-sided stat fields of the summary do not depend on
the spread/mid guard. -/
theorem calculate_summary_fields (b s : List Quote) :
    (calculate_summary b s).buy_count = (pricesOf b).length
      ∧ (calculate_summary b s).buy_best = listMin (pricesOf b)
      ∧ (calculate_summary b s).buy_worst = listMax (pricesOf b)
      ∧ (calculate_summary b s).buy_avg = listAvg (pricesOf b)
      ∧ (calculate_summary b s).sell_count = (pricesOf s).length
      ∧ (calculate_summary b s).sell_best = listMax (pricesOf s)
      ∧ (calculate_summary b s).sell_worst = listMin (pricesOf s)
      ∧ (calculate_summary b s).sell_avg = listAvg (pricesOf s) := by
  rw [calculate_summary]
  by_cases hc : (optTruthy (listAvg (pricesOf b))
      && optTruthy (listAvg (pricesOf s))) = true
  · rw [if_pos hc]
    exact ⟨rfl, rfl, rfl, rfl, rfl, rfl, rfl, rfl⟩
  · rw [if_neg hc]
    exact ⟨rfl, rfl, rfl, rfl, rfl, rfl, rfl, rfl⟩

/-! ### Claim C8 -/

/-- Counterexample to the "if and only if both averages are present"
part of claim C8: with buy prices 5 and −5 the buy average is present
(some 0) and the sell average is present (some 10), yet the spread and
mid-rate are left absent, because the code tests Python truthiness of
the averages, and 0.0 is falsy. -/
theorem claim8_counterexample :
    (calculate_summary [q5, qm5] [q10]).buy_avg = some 0
      ∧ (calculate_summary [q5, qm5] [q10]).sell_avg = some 10
      ∧ (calculate_summary [q5, qm5] [q10]).spread_percent = none
      ∧ (calculate_summary [q5, qm5] [q10]).mid_rate = none := by
  decide

/-- Claim C8 (amended): summarize([], []) yields the Snapshot with
both counts zero and every best/worst/avg/spread/mid field absent
(none, not zero); in general spreadPercent and midRate are computed if
and only if both averages are TRUTHY — present and nonzero — and left
absent otherwise. -/
theorem claim8_theorem :
    calculate_summary [] []
        = ⟨0, none, none, none, 0, none, none, none, none, none⟩
      ∧ (∀ b s : List Quote,
          ((calculate_summary b s).spread_percent.isSome
            = (optTruthy (calculate_summary b s).buy_avg
               && optTruthy (calculate_summary b s).sell_avg))
          ∧ ((calculate_summary b s).mid_rate.isSome
            = (optTruthy (calculate_summary b s).buy_avg
               && optTruthy (calculate_summary b s).sell_avg))) := by
  refine ⟨by decide, ?_⟩
  intro b s
  obtain ⟨_, _, _, h4, _, _, _, h8⟩ := calculate_summary_fields b s
  rw [h4, h8, calculate_summary]
  by_cases hc : (optTruthy (listAvg (pricesOf b))
      && optTruthy (listAvg (pricesOf s))) = true
  · rw [if_pos hc]
    exact ⟨by rw [hc]; rfl, by rw [hc]; rfl⟩
  · have hcf : (optTruthy (listAvg (pricesOf b))
        && optTruthy (listAvg (pricesOf s))) = false :=
      Bool.eq_false_iff.mpr hc
    rw [if_neg hc]
    exact ⟨by rw [hcf]; rfl, by rw [hcf]; rfl⟩

/-! ### Claim C9 -/

/-- Counterexample to claim C9 as stated: the quote lists [q0] and
[q1550] are both non-empty, yet buyStats.count is 0, not
|buyQuotes| = 1: the zero price is falsy and filtered out before the
stats are computed. -/
theorem claim9_counterexample :
    ([q0] ≠ ([] : List Quote)) ∧ ([q1550] ≠ ([] : List Quote))
      ∧ (calculate_summary [q0] [q1550]).buy_count = 0
      ∧ [q0].length = 1 := by
  decide

/-- Claim C9 (amended): whenever each side has at least one quote with
a truthy (nonzero) price, the summary reports, over the truthy prices
of each side: count = their number, buy best = their minimum, buy
worst = their maximum, avg = their arithmetic mean, and the sell side
mirrored with best = maximum and worst = minimum. -/
theorem claim9_theorem (b s : List Quote)
    (hb : pricesOf b ≠ []) (hs : pricesOf s ≠ []) :
    (calculate_summary b s).buy_count = (pricesOf b).length
      ∧ (∃ m, (calculate_summary b s).buy_best = some m
          ∧ m ∈ pricesOf b ∧ ∀ x ∈ pricesOf b, m ≤ x)
      ∧ (∃ M, (calculate_summary b s).buy_worst = some M
          ∧ M ∈ pricesOf b ∧ ∀ x ∈ pricesOf b, x ≤ M)
      ∧ (calculate_summary b s).buy_avg
          = some ((pricesOf b).sum / (pricesOf b).length)
      ∧ (calculate_summary b s).sell_count = (pricesOf s).length
      ∧ (∃ M, (calculate_summary b s).sell_best = some M
          ∧ M ∈ pricesOf s ∧ ∀ x ∈ pricesOf s, x ≤ M)
      ∧ (∃ m, (calculate_summary b s).sell_worst = some m
          ∧ m ∈ pricesOf s ∧ ∀ x ∈ pricesOf s, m ≤ x)
      ∧ (calculate_summary b s).sell_avg
          = some ((pricesOf s).sum / (pricesOf s).length) := by
  obtain ⟨p, ps, hbp⟩ : ∃ p ps, pricesOf b = p :: ps := by
    cases h : pricesOf b with
    | nil => exact absurd h hb
    | cons p ps => exact ⟨p, ps, rfl⟩
  obtain ⟨r, rs, hsp⟩ : ∃ r rs, pricesOf s = r :: rs := by
    cases h : pricesOf s with
    | nil => exact absurd h hs
    | cons r rs => exact ⟨r, rs, rfl⟩
  obtain ⟨h1, h2, h3, h4, h5, h6, h7, h8⟩ := calculate_summary_fields b s
  refine ⟨h1, ⟨ps.foldl min p, ?_, ?_, ?_⟩, ⟨ps.foldl max p, ?_, ?_, ?_⟩,
    ?_, h5, ⟨rs.foldl max r, ?_, ?_, ?_⟩, ⟨rs.foldl min r, ?_, ?_, ?_⟩, ?_⟩
  · rw [h2, hbp]; rfl
  · rw [hbp]; exact foldl_min_mem ps p
  · intro x hx; rw [hbp] at hx; exact foldl_min_le ps p x hx
  · rw [h3, hbp]; rfl
  · rw [hbp]; exact foldl_max_mem ps p
  · intro x hx; rw [hbp] at hx; exact foldl_max_ge ps p x hx
  · rw [h4, hbp]; rfl
  · rw [h6, hsp]; rfl
  · rw [hsp]; exact foldl_max_mem rs r
  · intro x hx; rw [hsp] at hx; exact foldl_max_ge rs r x hx
  · rw [h7, hsp]; rfl
  · rw [hsp]; exact foldl_min_mem rs r
  · intro x hx; rw [hsp] at hx; exact foldl_min_le rs r x hx
  · rw [h8, hsp]; rfl

/-- Witness for claim C9 at the spec example, one buy quote at 1600
and one sell quote at 1550; additionally the spread is exactly
(1600 − 1550)/1550 × 100 = 100/31 ≈ 3.23 and the mid-rate 1575. -/
theorem claim9_witness :
    (pricesOf [q1600] ≠ [] ∧ pricesOf [q1550] ≠ [])
      ∧ ((calculate_summary [q1600] [q1550]).buy_count
            = (pricesOf [q1600]).length
        ∧ (∃ m, (calculate_summary [q1600] [q1550]).buy_best = some m
            ∧ m ∈ pricesOf [q1600] ∧ ∀ x ∈ pricesOf [q1600], m ≤ x)
        ∧ (∃ M, (calculate_summary [q1600] [q1550]).buy_worst = some M
            ∧ M ∈ pricesOf [q1600] ∧ ∀ x ∈ pricesOf [q1600], x ≤ M)
        ∧ (calculate_summary [q1600] [q1550]).buy_avg
            = some ((pricesOf [q1600]).sum / (pricesOf [q1600]).length)
        ∧ (calculate_summary [q1600] [q1550]).sell_count
            = (pricesOf [q1550]).length
        ∧ (∃ M, (calculate_summary [q1600] [q1550]).sell_best = some M
            ∧ M ∈ pricesOf [q1550] ∧ ∀ x ∈ pricesOf [q1550], x ≤ M)
        ∧ (∃ m, (calculate_summary [q1600] [q1550]).sell_worst = some m
            ∧ m ∈ pricesOf [q1550] ∧ ∀ x ∈ pricesOf [q1550], m ≤ x)
        ∧ (calculate_summary [q1600] [q1550]).sell_avg
            = some ((pricesOf [q1550]).sum / (pricesOf [q1550]).length))
      ∧ (calculate_summary [q1600] [q1550]).spread_percent = some (100/31)
      ∧ (calculate_summary [q1600] [q1550]).mid_rate = some 1575 :=
  ⟨⟨by decide, by decide⟩,
   claim9_theorem [q1600] [q1550] (by decide) (by decide),
   by decide, by decide⟩

/-! ### Claim C6 -/

/-- Counterexample to claim C6 as stated: on the example timeline the
point emitted for 2020-02-15 carries rate 388.05, not the claimed
388.06: 362 + (450 − 362) × (45/152) = 388.0526…, which rounds to
388.05. -/
theorem claim6_counterexample :
    (interpolate_daily_rates pts6 (dateOrd 2020 1 1) (dateOrd 2020 3 1))[45]?
        = some ⟨dateOrd 2020 2 15, 38805/100, "interpolated",
            "interpolated", true⟩
      ∧ (38805 : ℚ)/100 ≠ 38806/100 := by
  decide

/-- Claim C6 (amended): filling the example timeline
{2020-01-01: 362, 2020-06-01: 450} over [2020-01-01, 2020-03-01]
produces exactly 61 DailyPoints; the first (2020-01-01) carries rate
362 with its original labels and the interpolated flag false
(provenance Actual); the 46th (2020-02-15, at offset 45 = the day
distance from 2020-01-01, with 152 days separating the two known
points) carries the interpolated rate
round2(362 + (450 − 362) × (45/152)) = 388.05.  The scraper.py engine
agrees on the day count. -/
theorem claim6_theorem :
    (interpolate_daily_rates pts6 (dateOrd 2020 1 1)
        (dateOrd 2020 3 1)).length = 61
      ∧ (interpolate_daily_rates pts6 (dateOrd 2020 1 1)
          (dateOrd 2020 3 1))[0]?
        = some ⟨dateOrd 2020 1 1, 362, "hand", "parallel_market", false⟩
      ∧ (interpolate_daily_rates pts6 (dateOrd 2020 1 1)
          (dateOrd 2020 3 1))[45]?
        = some ⟨dateOrd 2020 2 15, 38805/100, "interpolated",
            "interpolated", true⟩
      ∧ dateOrd 2020 2 15 - dateOrd 2020 1 1 = 45
      ∧ dateOrd 2020 6 1 - dateOrd 2020 1 1 = 152
      ∧ round2 (362 + (450 - 362) * ((45 : ℚ)/152)) = 38805/100
      ∧ (interpolate_daily tl6B (dateOrd 2020 1 1)
          (dateOrd 2020 3 1)).length = 61 := by
  decide

end Scraper
